import Mathlib

/-!
Verification development for the FreeRTOS real-time-stats monitor
(`src/stats.c`, `src/stats.h`).

The embedding is shallow: the C functions become pure Lean functions, the
process-wide accumulator array `s_accumulated_infos[ACCUMULATED_INFO_NUM]`
becomes an explicit `List accumulated_info_t` threaded through the
operations, machine integers become `Nat` with explicit `% 2^32` / `% 2^64`
where C unsigned overflow matters, and pointers (task handles, task-name
pointers, which the C code compares only for identity) become `Option Nat`
with `none` standing for `NULL`.
-/

set_option maxHeartbeats 1000000

/-- Pointer identity: the C code compares task handles and task-name
pointers by raw equality only, never dereferencing them as data, so an
abstract identifier suffices. -/
abbrev Ptr := Nat

/-- Modulus of `uint32_t` arithmetic (2^32), written as a literal so that
`omega` can work with it. -/
def U32 : Nat := 4294967296

/-- Modulus of `uint64_t` arithmetic (2^64). -/
def U64 : Nat := 18446744073709551616

/-- C `uint32_t` subtraction `a - b`: wraparound semantics, total on `Nat`. -/
def u32sub (a b : Nat) : Nat := (U32 + a - b % U32) % U32

/-- C `uint32_t` multiplication `a * b`: wraparound semantics. -/
def u32mul (a b : Nat) : Nat := (a * b) % U32

/-- `accumulated_info_t` from stats.c: `char *task_name` (a pointer,
`none` = `NULL`, the free-slot marker), `uint64_t time`, `bool is_running`
(the per-pass "seen" flag). -/
structure accumulated_info_t where
  task_name : Option Ptr
  time : Nat
  is_running : Bool
deriving DecidableEq

/-- `stats_reset_accumulated_infos` (stats.c:31-38): clear every slot of
the table unconditionally. -/
def stats_reset_accumulated_infos (tbl : List accumulated_info_t) :
    List accumulated_info_t :=
  tbl.map (fun _ => { task_name := none, time := 0, is_running := false })

/-- First phase of the loop in `set_accumulated_info` (stats.c:42-47): if a
slot whose `task_name` pointer equals the argument exists, add the time into
the first such slot and mark it running; the loop `return`s there. -/
def updateMatch (name : Option Ptr) (t : Nat) :
    List accumulated_info_t → List accumulated_info_t
  | [] => []
  | s :: rest =>
    if s.task_name = name then
      { s with time := (s.time + t) % U64, is_running := true } :: rest
    else s :: updateMatch name t rest

/-- Insertion phase of `set_accumulated_info` (stats.c:48-58): `dst_idx`
remembers the first slot with `task_name == NULL`; when the scan finds no
matching name, the new record is written there. -/
def insertFree (name : Option Ptr) (t : Nat) :
    List accumulated_info_t → List accumulated_info_t
  | [] => []
  | s :: rest =>
    if s.task_name = none then
      { task_name := name, time := t, is_running := true } :: rest
    else s :: insertFree name t rest

/-- Whether some slot's `task_name` pointer equals `name`
(the loop's early-return condition, stats.c:43). -/
def hasMatch (name : Option Ptr) (tbl : List accumulated_info_t) : Bool :=
  tbl.any (fun s => s.task_name == name)

/-- Whether some slot is free (`task_name == NULL`, stats.c:48). -/
def hasFree (tbl : List accumulated_info_t) : Bool :=
  tbl.any (fun s => s.task_name == none)

/-- `set_accumulated_info` (stats.c:40-59).  The single C loop returns as
soon as it sees a slot whose name pointer matches (adding the time there),
otherwise remembers the first free slot; after the scan it either inserts
into that free slot or, with the buffer full (`dst_idx == 255`), logs
`"error: accumulated info's buffer is full"` and returns with the table
untouched. -/
def set_accumulated_info (name : Option Ptr) (t : Nat)
    (tbl : List accumulated_info_t) : List accumulated_info_t :=
  if hasMatch name tbl then updateMatch name t tbl
  else if hasFree tbl then insertFree name t tbl
  else tbl

/-- `get_accumulated_info` (stats.c:61-68): first slot whose `task_name`
pointer equals the argument, `none` for the C `NULL` return. -/
def get_accumulated_info (name : Option Ptr)
    (tbl : List accumulated_info_t) : Option accumulated_info_t :=
  tbl.find? (fun s => s.task_name == name)

/-- `end_calc_accumulated_info` (stats.c:70-80): every slot not marked
running is cleared (`task_name = NULL`, `time = 0`); every running slot has
its flag reset to `false` for the next pass. -/
def end_calc_accumulated_info (tbl : List accumulated_info_t) :
    List accumulated_info_t :=
  tbl.map (fun s =>
    if !s.is_running then { s with task_name := none, time := 0 }
    else { s with is_running := false })

/-- At most one slot of the table holds any given non-`NULL` name pointer. -/
def namesUnique (tbl : List accumulated_info_t) : Prop :=
  (tbl.map (fun s => s.task_name)).Pairwise (fun a b => a ≠ none → a ≠ b)

-- ### Specification lemmas for the accumulator operations

theorem hasMatch_iff {name : Option Ptr} {tbl : List accumulated_info_t} :
    hasMatch name tbl = true ↔ ∃ s ∈ tbl, s.task_name = name := by
  simp [hasMatch, List.any_eq_true]

theorem hasFree_iff {tbl : List accumulated_info_t} :
    hasFree tbl = true ↔ ∃ s ∈ tbl, s.task_name = none := by
  simp [hasFree, List.any_eq_true]

theorem updateMatch_spec (name : Option Ptr) (t : Nat) :
    ∀ tbl : List accumulated_info_t, (∃ s ∈ tbl, s.task_name = name) →
    ∃ i, ∃ hi : i < tbl.length, (tbl.get ⟨i, hi⟩).task_name = name ∧
      updateMatch name t tbl =
        tbl.set i { tbl.get ⟨i, hi⟩ with
          time := ((tbl.get ⟨i, hi⟩).time + t) % U64, is_running := true }
  | [], h => by simp at h
  | s :: rest, h => by
    by_cases hs : s.task_name = name
    · exact ⟨0, Nat.succ_pos _, hs, by simp [updateMatch, hs]⟩
    · have hrest : ∃ x ∈ rest, x.task_name = name := by
        rcases h with ⟨x, hx, hxn⟩
        rcases List.mem_cons.mp hx with rfl | hx
        · exact absurd hxn hs
        · exact ⟨x, hx, hxn⟩
      obtain ⟨i, hi, hname, heq⟩ := updateMatch_spec name t rest hrest
      exact ⟨i + 1, Nat.succ_lt_succ hi, hname, by
        simp [updateMatch, hs, List.set_cons_succ, heq]⟩

theorem insertFree_spec (name : Option Ptr) (t : Nat) :
    ∀ tbl : List accumulated_info_t, (∃ s ∈ tbl, s.task_name = none) →
    ∃ i, ∃ hi : i < tbl.length, (tbl.get ⟨i, hi⟩).task_name = none ∧
      insertFree name t tbl =
        tbl.set i { task_name := name, time := t, is_running := true }
  | [], h => by simp at h
  | s :: rest, h => by
    by_cases hs : s.task_name = none
    · exact ⟨0, Nat.succ_pos _, hs, by simp [insertFree, hs]⟩
    · have hrest : ∃ x ∈ rest, x.task_name = none := by
        rcases h with ⟨x, hx, hxn⟩
        rcases List.mem_cons.mp hx with rfl | hx
        · exact absurd hxn hs
        · exact ⟨x, hx, hxn⟩
      obtain ⟨i, hi, hname, heq⟩ := insertFree_spec name t rest hrest
      exact ⟨i + 1, Nat.succ_lt_succ hi, hname, by
        simp [insertFree, hs, List.set_cons_succ, heq]⟩

theorem updateMatch_map_names (name : Option Ptr) (t : Nat) :
    ∀ tbl : List accumulated_info_t,
      (updateMatch name t tbl).map (fun s => s.task_name) =
        tbl.map (fun s => s.task_name)
  | [] => rfl
  | s :: rest => by
    by_cases hs : s.task_name = name
    · simp [updateMatch, hs]
    · simp [updateMatch, hs, updateMatch_map_names name t rest]

theorem namesUnique_cons {s : accumulated_info_t}
    {rest : List accumulated_info_t} :
    namesUnique (s :: rest) ↔
      ((∀ x ∈ rest, s.task_name ≠ none → s.task_name ≠ x.task_name) ∧
        namesUnique rest) := by
  simp [namesUnique, List.pairwise_cons]

theorem mem_insertFree (name : Option Ptr) (t : Nat) :
    ∀ (tbl : List accumulated_info_t) (x : accumulated_info_t),
      x ∈ insertFree name t tbl → x.task_name = name ∨ x ∈ tbl
  | [], x, h => by simp [insertFree] at h
  | s :: rest, x, h => by
    by_cases hs : s.task_name = none
    · simp only [insertFree, hs, if_pos rfl] at h
      rcases List.mem_cons.mp h with rfl | h
      · exact Or.inl rfl
      · exact Or.inr (List.mem_cons_of_mem _ h)
    · simp only [insertFree, hs, if_neg hs] at h
      rcases List.mem_cons.mp h with rfl | h
      · exact Or.inr (List.mem_cons_self _ _)
      · rcases mem_insertFree name t rest x h with h1 | h1
        · exact Or.inl h1
        · exact Or.inr (List.mem_cons_of_mem _ h1)

theorem insertFree_uniq (name : Option Ptr) (t : Nat) :
    ∀ tbl : List accumulated_info_t, (∀ s ∈ tbl, s.task_name ≠ name) →
      namesUnique tbl → namesUnique (insertFree name t tbl)
  | [], _, _ => by simp [insertFree, namesUnique]
  | s :: rest, hno, hu => by
    obtain ⟨hhead, htail⟩ := namesUnique_cons.mp hu
    by_cases hs : s.task_name = none
    · simp only [insertFree, hs, if_pos rfl]
      refine namesUnique_cons.mpr ⟨?_, htail⟩
      intro x hx _
      exact fun he =>
        hno x (List.mem_cons_of_mem _ hx) he.symm
    · simp only [insertFree, if_neg hs]
      refine namesUnique_cons.mpr ⟨?_, insertFree_uniq name t rest
        (fun x hx => hno x (List.mem_cons_of_mem _ hx)) htail⟩
      intro x hx hne
      rcases mem_insertFree name t rest x hx with h1 | h1
      · rw [h1]
        exact hno s (List.mem_cons_self _ _)
      · exact hhead x h1 hne

theorem end_calc_names (tbl : List accumulated_info_t) (x : accumulated_info_t)
    (hx : x ∈ end_calc_accumulated_info tbl) :
    x.task_name = none ∨ ∃ s ∈ tbl, x.task_name = s.task_name := by
  obtain ⟨s, hs, rfl⟩ := List.mem_map.mp hx
  cases hr : s.is_running
  · left; simp [hr]
  · right; exact ⟨s, hs, by simp [hr]⟩

theorem end_calc_uniq :
    ∀ tbl : List accumulated_info_t, namesUnique tbl →
      namesUnique (end_calc_accumulated_info tbl)
  | [], _ => by simp [end_calc_accumulated_info, namesUnique]
  | s :: rest, hu => by
    obtain ⟨hhead, htail⟩ := namesUnique_cons.mp hu
    have hrec := end_calc_uniq rest htail
    rw [show end_calc_accumulated_info (s :: rest) =
        (if !s.is_running then { s with task_name := none, time := 0 }
         else { s with is_running := false }) ::
          end_calc_accumulated_info rest from rfl]
    refine namesUnique_cons.mpr ⟨?_, hrec⟩
    intro x hx hne
    cases hs : s.is_running
    · simp [hs] at hne
    · have hne2 : s.task_name ≠ none := by simpa [hs] using hne
      have hgoal : s.task_name ≠ x.task_name := by
        rcases end_calc_names rest x hx with h1 | ⟨y, hy, h1⟩
        · rw [h1]; exact hne2
        · rw [h1]; exact hhead y hy hne2
      simpa [hs] using hgoal

theorem reset_uniq : ∀ tbl : List accumulated_info_t,
    namesUnique (stats_reset_accumulated_infos tbl)
  | [] => by simp [stats_reset_accumulated_infos, namesUnique]
  | s :: rest => by
    rw [show stats_reset_accumulated_infos (s :: rest) =
        { task_name := none, time := 0, is_running := false } ::
          stats_reset_accumulated_infos rest from rfl]
    exact namesUnique_cons.mpr ⟨fun x _ hne => absurd rfl hne, reset_uniq rest⟩

theorem hasMatch_eq_false {name : Option Ptr} {tbl : List accumulated_info_t}
    (h : ∀ s ∈ tbl, s.task_name ≠ name) : hasMatch name tbl = false := by
  have : ¬ hasMatch name tbl = true := fun hc => by
    obtain ⟨s, hs, he⟩ := hasMatch_iff.mp hc
    exact h s hs he
  simpa using this

theorem hasFree_eq_false {tbl : List accumulated_info_t}
    (h : ∀ s ∈ tbl, s.task_name ≠ none) : hasFree tbl = false := by
  have : ¬ hasFree tbl = true := fun hc => by
    obtain ⟨s, hs, he⟩ := hasFree_iff.mp hc
    exact h s hs he
  simpa using this

-- ### Claim theorems about the accumulator table

/-- C5: for every table state and every non-null name,
`set_accumulated_info` (the spec's `record(name, delta_time)`) behaves as:
if some slot's name reference equals `name`, that slot's time increases by
`delta_time` (uint64 arithmetic) and its seen flag becomes true; otherwise
if some slot is free, a new record is created there with `time = delta_time`
and `seen = true`; otherwise the operation fails silently after logging,
accumulating nothing. -/
theorem stats_C5 (tbl : List accumulated_info_t) (name : Option Ptr) (t : Nat)
    (hname : name ≠ none) :
    ((∃ s ∈ tbl, s.task_name = name) →
      ∃ i, ∃ hi : i < tbl.length, (tbl.get ⟨i, hi⟩).task_name = name ∧
        set_accumulated_info name t tbl =
          tbl.set i { tbl.get ⟨i, hi⟩ with
            time := ((tbl.get ⟨i, hi⟩).time + t) % U64, is_running := true }) ∧
    ((∀ s ∈ tbl, s.task_name ≠ name) → (∃ s ∈ tbl, s.task_name = none) →
      ∃ i, ∃ hi : i < tbl.length, (tbl.get ⟨i, hi⟩).task_name = none ∧
        set_accumulated_info name t tbl =
          tbl.set i { task_name := name, time := t, is_running := true }) ∧
    ((∀ s ∈ tbl, s.task_name ≠ name) → (∀ s ∈ tbl, s.task_name ≠ none) →
      set_accumulated_info name t tbl = tbl) := by
  refine ⟨?_, ?_, ?_⟩
  · intro h
    have hm : hasMatch name tbl = true := hasMatch_iff.mpr h
    rw [show set_accumulated_info name t tbl =
        (if hasMatch name tbl then updateMatch name t tbl
         else if hasFree tbl then insertFree name t tbl else tbl) from rfl,
      hm, if_pos rfl]
    exact updateMatch_spec name t tbl h
  · intro h1 h2
    have hm : hasMatch name tbl = false := hasMatch_eq_false h1
    have hf : hasFree tbl = true := hasFree_iff.mpr h2
    rw [show set_accumulated_info name t tbl =
        (if hasMatch name tbl then updateMatch name t tbl
         else if hasFree tbl then insertFree name t tbl else tbl) from rfl,
      hm, hf]
    simp only [Bool.false_eq_true, if_false, if_pos rfl]
    exact insertFree_spec name t tbl h2
  · intro h1 h2
    have hm : hasMatch name tbl = false := hasMatch_eq_false h1
    have hf : hasFree tbl = false := hasFree_eq_false h2
    simp [set_accumulated_info, hm, hf]

/-- Witness for C5 at a concrete table and name. -/
theorem stats_C5_w :
    ∃ i, ∃ hi : i < ([⟨some 1, 5, false⟩, ⟨none, 0, false⟩] :
        List accumulated_info_t).length,
      (([⟨some 1, 5, false⟩, ⟨none, 0, false⟩] :
          List accumulated_info_t).get ⟨i, hi⟩).task_name = some 1 ∧
      set_accumulated_info (some 1) 7 [⟨some 1, 5, false⟩, ⟨none, 0, false⟩] =
        ([⟨some 1, 5, false⟩, ⟨none, 0, false⟩] :
          List accumulated_info_t).set i
          { ([⟨some 1, 5, false⟩, ⟨none, 0, false⟩] :
              List accumulated_info_t).get ⟨i, hi⟩ with
            time := ((([⟨some 1, 5, false⟩, ⟨none, 0, false⟩] :
              List accumulated_info_t).get ⟨i, hi⟩).time + 7) % U64,
            is_running := true } :=
  (stats_C5 [⟨some 1, 5, false⟩, ⟨none, 0, false⟩] (some 1) 7 (by decide)).1
    ⟨⟨some 1, 5, false⟩, by decide, rfl⟩

/-- C6: `end_calc_accumulated_info` (the spec's `end_pass`) clears every
record whose seen flag is false (freeing the slot and zeroing its time) and
resets the flag on every seen record; consequently, for any non-null name
all of whose records were unseen, `get_accumulated_info` (the spec's
`lookup`) afterwards returns not-found. -/
theorem stats_C6 (tbl : List accumulated_info_t) (name : Option Ptr) :
    (∀ i : Nat, ∀ s : accumulated_info_t, tbl[i]? = some s →
      (s.is_running = false →
        (end_calc_accumulated_info tbl)[i]? =
          some { task_name := none, time := 0, is_running := false }) ∧
      (s.is_running = true →
        (end_calc_accumulated_info tbl)[i]? =
          some { task_name := s.task_name, time := s.time,
                 is_running := false })) ∧
    (name ≠ none → (∀ s ∈ tbl, s.task_name = name → s.is_running = false) →
      get_accumulated_info name (end_calc_accumulated_info tbl) = none) := by
  constructor
  · intro i s hs
    constructor <;> intro hr <;>
      simp [end_calc_accumulated_info, List.getElem?_map, hs, hr]
  · intro hn hall
    apply List.find?_eq_none.mpr
    intro x hx
    simp only [end_calc_accumulated_info, List.mem_map] at hx
    obtain ⟨s, hs, rfl⟩ := hx
    cases hr : s.is_running
    · have : (none : Option Ptr) ≠ name := fun hc => hn hc.symm
      simp [hr, this]
    · have : s.task_name ≠ name := fun he => by
        have hf := hall s hs he
        rw [hr] at hf
        exact Bool.noConfusion hf
      simp [hr, this]

/-- Witness for C6 at a concrete table and name. -/
theorem stats_C6_w :
    get_accumulated_info (some 3)
      (end_calc_accumulated_info [⟨some 3, 4, false⟩, ⟨some 9, 2, true⟩]) =
      none :=
  (stats_C6 [⟨some 3, 4, false⟩, ⟨some 9, 2, true⟩] (some 3)).2
    (by decide) (by decide)

/-- C7: when a record for `name` exists, `set_accumulated_info name 0`
(the spec's `record(name, 0)`) leaves that record's stored accumulated time
unchanged and sets its seen flag to true. -/
theorem stats_C7 (tbl : List accumulated_info_t) (name : Option Ptr)
    (h1 : ∃ s ∈ tbl, s.task_name = name) (h2 : ∀ s ∈ tbl, s.time < U64) :
    ∃ i, ∃ hi : i < tbl.length, (tbl.get ⟨i, hi⟩).task_name = name ∧
      set_accumulated_info name 0 tbl =
        tbl.set i { tbl.get ⟨i, hi⟩ with is_running := true } := by
  have hm : hasMatch name tbl = true := hasMatch_iff.mpr h1
  obtain ⟨i, hi, hn, heq⟩ := updateMatch_spec name 0 tbl h1
  refine ⟨i, hi, hn, ?_⟩
  rw [show set_accumulated_info name 0 tbl =
      (if hasMatch name tbl then updateMatch name 0 tbl
       else if hasFree tbl then insertFree name 0 tbl else tbl) from rfl,
    hm, if_pos rfl, heq]
  have hlt : (tbl.get ⟨i, hi⟩).time < U64 := h2 _ (tbl.get_mem i hi)
  congr 1
  simp only [Nat.add_zero]
  rw [Nat.mod_eq_of_lt hlt]

/-- Witness for C7 at a concrete table and name. -/
theorem stats_C7_w :
    ∃ i, ∃ hi : i < ([⟨some 2, 9, false⟩] : List accumulated_info_t).length,
      (([⟨some 2, 9, false⟩] :
          List accumulated_info_t).get ⟨i, hi⟩).task_name = some 2 ∧
      set_accumulated_info (some 2) 0 [⟨some 2, 9, false⟩] =
        ([⟨some 2, 9, false⟩] : List accumulated_info_t).set i
          { ([⟨some 2, 9, false⟩] : List accumulated_info_t).get ⟨i, hi⟩ with
            is_running := true } :=
  stats_C7 [⟨some 2, 9, false⟩] (some 2)
    ⟨⟨some 2, 9, false⟩, by decide, rfl⟩ (by decide)

/-- C9: implicit uniqueness invariant of the accumulator table: provided
`set_accumulated_info` is only ever called with a non-null name, at most
one slot holds any given name reference, and this uniqueness is preserved
by `set_accumulated_info` (which updates an existing matching slot in
preference to inserting), `end_calc_accumulated_info`, and
`stats_reset_accumulated_infos`. -/
theorem stats_C9 (tbl : List accumulated_info_t) (name : Option Ptr) (t : Nat)
    (hname : name ≠ none) (hu : namesUnique tbl) :
    namesUnique (set_accumulated_info name t tbl) ∧
    namesUnique (end_calc_accumulated_info tbl) ∧
    namesUnique (stats_reset_accumulated_infos tbl) := by
  refine ⟨?_, end_calc_uniq tbl hu, reset_uniq tbl⟩
  rw [show set_accumulated_info name t tbl =
      (if hasMatch name tbl then updateMatch name t tbl
       else if hasFree tbl then insertFree name t tbl else tbl) from rfl]
  by_cases hm : hasMatch name tbl = true
  · rw [hm, if_pos rfl]
    unfold namesUnique
    rw [updateMatch_map_names]
    exact hu
  · have hm2 : hasMatch name tbl = false := by simpa using hm
    rw [hm2]
    simp only [Bool.false_eq_true, if_false]
    by_cases hf : hasFree tbl = true
    · rw [hf, if_pos rfl]
      refine insertFree_uniq name t tbl ?_ hu
      intro s hs he
      exact hm (hasMatch_iff.mpr ⟨s, hs, he⟩)
    · have hf2 : hasFree tbl = false := by simpa using hf
      rw [hf2]
      simpa using hu

/-- Witness for C9 at a concrete table and name. -/
theorem stats_C9_w :
    namesUnique
      (set_accumulated_info (some 5) 3 [⟨some 1, 2, true⟩, ⟨none, 0, false⟩]) ∧
    namesUnique
      (end_calc_accumulated_info [⟨some 1, 2, true⟩, ⟨none, 0, false⟩]) ∧
    namesUnique
      (stats_reset_accumulated_infos [⟨some 1, 2, true⟩, ⟨none, 0, false⟩]) :=
  stats_C9 [⟨some 1, 2, true⟩, ⟨none, 0, false⟩] (some 5) 3 (by decide)
    (by unfold namesUnique; decide)

/-- C10: implicit atomicity on capacity exhaustion: when no slot matches
`name` and no slot is free, `set_accumulated_info` leaves every slot of
the table completely unchanged. -/
theorem stats_C10 (tbl : List accumulated_info_t) (name : Option Ptr)
    (t : Nat) (h1 : ∀ s ∈ tbl, s.task_name ≠ name)
    (h2 : ∀ s ∈ tbl, s.task_name ≠ none) :
    set_accumulated_info name t tbl = tbl := by
  simp [set_accumulated_info, hasMatch_eq_false h1, hasFree_eq_false h2]

/-- Witness for C10 at a concrete full table. -/
theorem stats_C10_w :
    set_accumulated_info (some 5) 4 [⟨some 1, 0, false⟩, ⟨some 2, 3, true⟩] =
      [⟨some 1, 0, false⟩, ⟨some 2, 3, true⟩] :=
  stats_C10 [⟨some 1, 0, false⟩, ⟨some 2, 3, true⟩] (some 5) 4
    (by decide) (by decide)

-- ### The stopwatch utility (stats.h, stats.c:226-260)

/-- `stats_measure_state_t` from stats.h. -/
inductive stats_measure_state_t where
  | STATS_MEASURE_STOP
  | STATS_MEASURE_START
deriving DecidableEq

/-- `stats_run_time_t` from stats.h: `char name[16]`, `int64_t time`,
`int64_t start`, `stats_measure_state_t state`.  The two `int64_t` fields
are modelled as mathematical integers (the stopwatch accumulates monotonic
microsecond timestamps, far below the signed-64-bit range). -/
structure stats_run_time_t where
  name : String
  time : Int
  start : Int
  state : stats_measure_state_t
deriving DecidableEq

/-- `stats_run_time_start` (stats.c:236-247) on a non-NULL handler:
if the measurement is already started it only logs an error and returns,
otherwise it records the current time (`esp_timer_get_time()`, passed in
as `now`) and switches the state. -/
def stats_run_time_start (now : Int) (handler : stats_run_time_t) :
    stats_run_time_t :=
  if handler.state = stats_measure_state_t.STATS_MEASURE_START then handler
  else { handler with
    state := stats_measure_state_t.STATS_MEASURE_START, start := now }

/-- `stats_run_time_stop` (stats.c:249-260) on a non-NULL handler:
if the measurement is not started it only logs an error and returns,
otherwise it accumulates the elapsed time and switches the state. -/
def stats_run_time_stop (now : Int) (handler : stats_run_time_t) :
    stats_run_time_t :=
  if handler.state = stats_measure_state_t.STATS_MEASURE_STOP then handler
  else { handler with
    state := stats_measure_state_t.STATS_MEASURE_STOP,
    time := handler.time + (now - handler.start) }

/-- C8: starting an already-started stopwatch and stopping an
already-stopped one are no-ops that only log an error and leave every
field of the handler (name, time, start, state) unchanged. -/
theorem stats_C8 (now : Int) (handler : stats_run_time_t) :
    (handler.state = stats_measure_state_t.STATS_MEASURE_START →
      stats_run_time_start now handler = handler) ∧
    (handler.state = stats_measure_state_t.STATS_MEASURE_STOP →
      stats_run_time_stop now handler = handler) := by
  constructor
  · intro h
    simp [stats_run_time_start, h]
  · intro h
    simp [stats_run_time_stop, h]

/-- Witness for C8 at concrete handlers in each state. -/
theorem stats_C8_w :
    stats_run_time_start 5
        ⟨"a", 1, 2, stats_measure_state_t.STATS_MEASURE_START⟩ =
      ⟨"a", 1, 2, stats_measure_state_t.STATS_MEASURE_START⟩ ∧
    stats_run_time_stop 7
        ⟨"b", 3, 4, stats_measure_state_t.STATS_MEASURE_STOP⟩ =
      ⟨"b", 3, 4, stats_measure_state_t.STATS_MEASURE_STOP⟩ :=
  ⟨(stats_C8 5 ⟨"a", 1, 2, stats_measure_state_t.STATS_MEASURE_START⟩).1 rfl,
   (stats_C8 7 ⟨"b", 3, 4, stats_measure_state_t.STATS_MEASURE_STOP⟩).2 rfl⟩

-- ### The delta reconciler (print_real_time_stats, stats.c:105-198)

/-- The fields of FreeRTOS's `TaskStatus_t` that `print_real_time_stats`
reads: `xHandle` (an opaque task handle, compared for identity only and
overwritten with `NULL` to mark a consumed match), `pcTaskName` (a pointer
into the kernel's task-name storage, compared by pointer identity in the
accumulator), and `ulRunTimeCounter` (a `uint32_t` cumulative run-time
counter). -/
structure TaskStatus where
  xHandle : Option Ptr
  pcTaskName : Ptr
  ulRunTimeCounter : Nat
deriving DecidableEq

/-- The inner loop of the matcher (stats.c:154-162): scan the end array for
the first entry whose `xHandle` equals `h`; on a hit return that entry
together with the array in which its handle has been overwritten with
`NULL`. -/
def nullMatch (h : Option Ptr) :
    List TaskStatus → Option (TaskStatus × List TaskStatus)
  | [] => none
  | e :: rest =>
    if e.xHandle = h then some (e, { e with xHandle := none } :: rest)
    else (nullMatch h rest).map (fun p => (p.1, e :: p.2))

/-- One printed row of the matched-task section (stats.c:175): the task
name, this window's elapsed ticks, the accumulated time read back from
`get_accumulated_info` (`none` models the C `NULL` return that line 175
dereferences as `res->time`), and the percentage.  `handle` records the
handle value on which the match was made, for stating classification
properties. -/
structure MatchedRow where
  handle : Option Ptr
  pcTaskName : Ptr
  task_elapsed_time : Nat
  acc_time : Option Nat
  percentage_time : Nat
deriving DecidableEq

/-- Result of the matching loop: the start array with matched handles
nulled, the end array with matched handles nulled, the accumulator table
after the per-row `set_accumulated_info` calls, and the printed rows. -/
structure MatchResult where
  startOut : List TaskStatus
  endOut : List TaskStatus
  table : List accumulated_info_t
  rows : List MatchedRow
deriving DecidableEq

/-- The outer matching loop of `print_real_time_stats` (stats.c:152-177):
for each start entry, find the first end entry with the same handle; on a
match null both handles, compute the uint32 elapsed time and percentage
(`task_elapsed_time * 100UL` and `total_elapsed_time * portNUM_PROCESSORS`
are 32-bit products on the target), feed the sample into the accumulator
keyed by the start entry's name pointer, and read the accumulated value
back for printing. -/
def matchLoop (total_elapsed_time procs : Nat) :
    List TaskStatus → List TaskStatus → List accumulated_info_t → MatchResult
  | [], ea, tbl => ⟨[], ea, tbl, []⟩
  | s :: rest, ea, tbl =>
    match nullMatch s.xHandle ea with
    | none =>
      let r := matchLoop total_elapsed_time procs rest ea tbl
      { r with startOut := s :: r.startOut }
    | some (e, ea1) =>
      let task_elapsed_time := u32sub e.ulRunTimeCounter s.ulRunTimeCounter
      let percentage_time :=
        u32mul task_elapsed_time 100 / u32mul total_elapsed_time procs
      let tbl1 := set_accumulated_info (some s.pcTaskName) task_elapsed_time tbl
      let res := get_accumulated_info (some s.pcTaskName) tbl1
      let r := matchLoop total_elapsed_time procs rest ea1 tbl1
      { r with
        startOut := { s with xHandle := none } :: r.startOut,
        rows := ⟨s.xHandle, s.pcTaskName, task_elapsed_time,
                 res.map (fun a => a.time), percentage_time⟩ :: r.rows }

/-- Start entries printed as `Deleted` (stats.c:180-184): those whose
handle survived the matching loop. -/
def deletedOf (r : MatchResult) : List TaskStatus :=
  r.startOut.filter (fun s => s.xHandle.isSome)

/-- End entries printed as `Created` (stats.c:185-189): those whose handle
survived the matching loop. -/
def createdOf (r : MatchResult) : List TaskStatus :=
  r.endOut.filter (fun e => e.xHandle.isSome)

/-- The `esp_err_t` values `print_real_time_stats` can return. -/
inductive esp_err_t where
  | ESP_OK
  | ESP_ERR_NO_MEM
  | ESP_ERR_INVALID_SIZE
  | ESP_ERR_INVALID_STATE
deriving DecidableEq

/-- Everything a successful pass produces: the report sections and the
accumulator table after `end_calc_accumulated_info`. -/
structure PassOutput where
  rows : List MatchedRow
  deleted : List TaskStatus
  created : List TaskStatus
  table : List accumulated_info_t
deriving DecidableEq

/-- The post-capture part of `print_real_time_stats` (stats.c:142-197).
The two snapshots (entry arrays plus the uint32 global run-time counters
returned by `uxTaskGetSystemState`) are inputs; allocation and capture
failures (`ESP_ERR_NO_MEM`, `ESP_ERR_INVALID_SIZE`, stats.c:113-140) belong
to the external allocator and scheduler and are not modelled.
`total_elapsed_time` is the uint32 difference of the global counters
(stats.c:143); if it is zero the pass aborts with
`ESP_ERR_INVALID_STATE` (stats.c:144-147), otherwise the matching loop
runs, the unmatched remainders are reported, `end_calc_accumulated_info`
finishes the accumulator pass, and the function returns `ESP_OK`. -/
def print_real_time_stats (start_array end_array : List TaskStatus)
    (start_run_time end_run_time procs : Nat)
    (tbl : List accumulated_info_t) : Except esp_err_t PassOutput :=
  let total_elapsed_time := u32sub end_run_time start_run_time
  if total_elapsed_time = 0 then Except.error esp_err_t.ESP_ERR_INVALID_STATE
  else
    let r := matchLoop total_elapsed_time procs start_array end_array tbl
    Except.ok { rows := r.rows, deleted := deletedOf r, created := createdOf r,
                table := end_calc_accumulated_info r.table }

-- ### Claim theorems about the reconciliation pass

/-- A full accumulator table: all 16 slots occupied by distinct name
pointers, none free (`ACCUMULATED_INFO_NUM = 16`, stats.c:20). -/
def fullTable16 : List accumulated_info_t :=
  [⟨some 1, 0, false⟩, ⟨some 2, 0, false⟩, ⟨some 3, 0, false⟩,
   ⟨some 4, 0, false⟩, ⟨some 5, 0, false⟩, ⟨some 6, 0, false⟩,
   ⟨some 7, 0, false⟩, ⟨some 8, 0, false⟩, ⟨some 9, 0, false⟩,
   ⟨some 10, 0, false⟩, ⟨some 11, 0, false⟩, ⟨some 12, 0, false⟩,
   ⟨some 13, 0, false⟩, ⟨some 14, 0, false⟩, ⟨some 15, 0, false⟩,
   ⟨some 16, 0, false⟩]

/-- C1: on a pass whose accumulator table is full and does not hold the
matched task's name, `set_accumulated_info` indeed fails silently leaving
the table unchanged, and the modelled control flow completes the pass with
`ESP_OK` — but `get_accumulated_info` returns `NULL` (`none`) for that
name, and stats.c:175 unconditionally dereferences this return as
`res->time` when printing the row (the row's `acc_time` below is `none`),
so the real pass crashes instead of completing normally: the claim states
the code's evident intent, which the code contradicts. -/
theorem stats_C1_bug :
    set_accumulated_info (some 17) 400 fullTable16 = fullTable16 ∧
    get_accumulated_info (some 17)
      (set_accumulated_info (some 17) 400 fullTable16) = none ∧
    (matchLoop 1000 2 [⟨some 100, 17, 0⟩] [⟨some 100, 17, 400⟩]
        fullTable16).rows.map (fun row => row.acc_time) = [none] ∧
    print_real_time_stats [⟨some 100, 17, 0⟩] [⟨some 100, 17, 400⟩]
        0 1000 2 fullTable16 =
      Except.ok ⟨[⟨some 100, 17, 400, none, 20⟩], [], [],
        List.replicate 16 ⟨none, 0, false⟩⟩ := by
  refine ⟨by decide, by decide, by decide, ?_⟩
  rfl

/-- C2 counterexample: the claim says the pass fails with
`ESP_ERR_INVALID_STATE` whenever the elapsed tick delta is zero *or
negative*; but with `start_run_time = 5`, `end_run_time = 3` the
mathematical delta is negative while the uint32 difference wraps to
`2^32 - 2 ≠ 0`, so the code does not return the error. -/
theorem stats_C2_cex :
    ((3 : Int) - 5 ≤ 0) ∧
    print_real_time_stats [] [] 5 3 2 [] ≠
      Except.error esp_err_t.ESP_ERR_INVALID_STATE := by
  refine ⟨by norm_num, ?_⟩
  intro hc
  have h : print_real_time_stats [] [] 5 3 2 [] =
      Except.ok ⟨[], [], [], []⟩ := rfl
  rw [h] at hc
  exact Except.noConfusion hc

/-- C2 amended: for uint32 global tick counters, the pass fails with
`ESP_ERR_INVALID_STATE` iff the uint32 difference
`end_run_time - start_run_time` is zero, i.e. iff the two tick values are
equal; in particular identical tick values yield this error and the pass
is aborted.  A negative mathematical delta wraps to a non-zero uint32 and
is not detected. -/
theorem stats_C2_amended (sa ea : List TaskStatus) (srt ert procs : Nat)
    (tbl : List accumulated_info_t) (h1 : srt < U32) (h2 : ert < U32) :
    (print_real_time_stats sa ea srt ert procs tbl =
        Except.error esp_err_t.ESP_ERR_INVALID_STATE) ↔ ert = srt := by
  have h1a : srt < 4294967296 := h1
  have h2a : ert < 4294967296 := h2
  have key : u32sub ert srt = 0 ↔ ert = srt := by
    unfold u32sub U32
    omega
  simp only [print_real_time_stats]
  by_cases hc : u32sub ert srt = 0
  · rw [if_pos hc]
    simp [key.mp hc]
  · rw [if_neg hc]
    constructor
    · intro h
      exact Except.noConfusion h
    · intro h
      exact absurd (key.mpr h) hc

/-- Witness for C2's amended theorem at identical tick values. -/
theorem stats_C2_amended_w :
    (5 : Nat) < U32 ∧
    print_real_time_stats [] [] 5 5 2 [] =
      Except.error esp_err_t.ESP_ERR_INVALID_STATE :=
  ⟨by norm_num [U32],
   (stats_C2_amended [] [] 5 5 2 [] (by norm_num [U32])
     (by norm_num [U32])).mpr rfl⟩

-- ### Classification counting machinery for the matcher

/-- The handle column of a snapshot array. -/
def handles (l : List TaskStatus) : List (Option Ptr) :=
  l.map (fun e => e.xHandle)

/-- Number of entries of a snapshot array whose handle is `some p`. -/
def handleCount (p : Ptr) (l : List TaskStatus) : Nat :=
  l.countP (fun e => e.xHandle == some p)

/-- Number of matched rows reported on the handle `some p`. -/
def rowCount (p : Ptr) (l : List MatchedRow) : Nat :=
  l.countP (fun row => row.handle == some p)

theorem handleCount_cons {p : Ptr} {e : TaskStatus} {l : List TaskStatus} :
    handleCount p (e :: l) =
      handleCount p l + if e.xHandle = some p then 1 else 0 := by
  simp [handleCount, List.countP_cons]

theorem rowCount_cons {p : Ptr} {row : MatchedRow} {l : List MatchedRow} :
    rowCount p (row :: l) =
      rowCount p l + if row.handle = some p then 1 else 0 := by
  simp [rowCount, List.countP_cons]

theorem handleCount_pos {p : Ptr} {l : List TaskStatus} :
    0 < handleCount p l ↔ some p ∈ handles l := by
  rw [handleCount, List.countP_pos_iff]
  constructor
  · rintro ⟨e, he, hbe⟩
    exact List.mem_map.mpr ⟨e, he, by simpa using hbe⟩
  · intro hm
    obtain ⟨e, he, hfe⟩ := List.mem_map.mp hm
    exact ⟨e, he, by simp [hfe]⟩

theorem handleCount_eq_zero {p : Ptr} {l : List TaskStatus} :
    handleCount p l = 0 ↔ ∀ e ∈ l, e.xHandle ≠ some p := by
  simp [handleCount, List.countP_eq_zero]

theorem handles_cons_mem {p : Ptr} {s : TaskStatus} {rest : List TaskStatus} :
    (some p ∈ handles (s :: rest)) ↔
      (s.xHandle = some p ∨ some p ∈ handles rest) := by
  simp [handles, eq_comm]

theorem nullMatch_eq_none {h : Option Ptr} :
    ∀ {ea : List TaskStatus}, nullMatch h ea = none ↔ ∀ e ∈ ea, e.xHandle ≠ h
  | [] => by simp [nullMatch]
  | e :: rest => by
    by_cases hx : e.xHandle = h
    · simp [nullMatch, hx]
    · simp [nullMatch, hx, Option.map_eq_none', @nullMatch_eq_none h rest]

theorem nullMatch_some_facts {h : Option Ptr} :
    ∀ {ea : List TaskStatus} {m : TaskStatus} {ea1 : List TaskStatus},
      nullMatch h ea = some (m, ea1) →
      m.xHandle = h ∧ m ∈ ea ∧
      (∀ q : Ptr, h ≠ some q → handleCount q ea1 = handleCount q ea) ∧
      (∀ q : Ptr, h = some q → handleCount q ea = handleCount q ea1 + 1) ∧
      (∀ x ∈ ea1, x ∈ ea ∨ x = { m with xHandle := none })
  | [], m, ea1, hnm => by simp [nullMatch] at hnm
  | e :: rest, m, ea1, hnm => by
    by_cases hx : e.xHandle = h
    · rw [nullMatch, if_pos hx] at hnm
      simp only [Option.some.injEq, Prod.mk.injEq] at hnm
      obtain ⟨rfl, rfl⟩ := hnm
      refine ⟨hx, List.mem_cons_self _ _, ?_, ?_, ?_⟩
      · intro q hq
        rw [handleCount_cons, handleCount_cons,
          if_neg (by simp), if_neg (by rw [hx]; exact hq)]
      · intro q hq
        rw [handleCount_cons, handleCount_cons,
          if_pos (by rw [hx]; exact hq), if_neg (by simp)]
      · intro x hx2
        rcases List.mem_cons.mp hx2 with rfl | hx2
        · exact Or.inr rfl
        · exact Or.inl (List.mem_cons_of_mem _ hx2)
    · rw [nullMatch, if_neg hx] at hnm
      obtain ⟨⟨m0, rest1⟩, hrec, heq⟩ := Option.map_eq_some'.mp hnm
      simp only [Prod.mk.injEq] at heq
      obtain ⟨rfl, rfl⟩ := heq
      obtain ⟨f1, f2, f3, f4, f5⟩ := nullMatch_some_facts hrec
      refine ⟨f1, List.mem_cons_of_mem _ f2, ?_, ?_, ?_⟩
      · intro q hq
        rw [handleCount_cons, handleCount_cons, f3 q hq]
      · intro q hq
        rw [handleCount_cons, handleCount_cons, f4 q hq]
        omega
      · intro x hx2
        rcases List.mem_cons.mp hx2 with rfl | hx2
        · exact Or.inl (List.mem_cons_self _ _)
        · rcases f5 x hx2 with h5 | h5
          · exact Or.inl (List.mem_cons_of_mem _ h5)
          · exact Or.inr h5

theorem handleCount_le_one {p : Ptr} :
    ∀ {l : List TaskStatus}, (handles l).Nodup → handleCount p l ≤ 1
  | [], _ => by simp [handleCount]
  | e :: rest, hnd => by
    have hnd2 : (handles rest).Nodup := (List.nodup_cons.mp hnd).2
    have hne : e.xHandle ∉ handles rest := (List.nodup_cons.mp hnd).1
    rw [handleCount_cons]
    by_cases hx : e.xHandle = some p
    · have hc0 : handleCount p rest = 0 := handleCount_eq_zero.mpr (by
        intro f hf hfe
        apply hne
        rw [hx, ← hfe]
        exact List.mem_map.mpr ⟨f, hf, rfl⟩)
      rw [hc0, if_pos hx]
    · rw [if_neg hx]
      have := @handleCount_le_one p rest hnd2
      omega

theorem handleCount_filter (p : Ptr) :
    ∀ l : List TaskStatus,
      handleCount p (l.filter (fun e => e.xHandle.isSome)) = handleCount p l
  | [] => rfl
  | e :: rest => by
    by_cases hx : e.xHandle.isSome
    · rw [List.filter_cons_of_pos (by simpa using hx), handleCount_cons,
        handleCount_cons, handleCount_filter p rest]
    · have hnone : e.xHandle = none := by
        cases hcase : e.xHandle
        · rfl
        · rw [hcase] at hx
          exact absurd rfl hx
      rw [List.filter_cons_of_neg (by simpa using hx), handleCount_cons,
        handleCount_filter p rest, if_neg (by rw [hnone]; simp)]
      omega

theorem handleCount_cons_nulled {p : Ptr} {s : TaskStatus}
    {l : List TaskStatus} :
    handleCount p ({ s with xHandle := none } :: l) = handleCount p l := by
  simp [handleCount, List.countP_cons]

theorem rowCount_cons_mk {p : Ptr} {h : Option Ptr} {nm tet pt : Nat}
    {ac : Option Nat} {l : List MatchedRow} :
    rowCount p ((⟨h, nm, tet, ac, pt⟩ : MatchedRow) :: l) =
      rowCount p l + if h = some p then 1 else 0 := by
  simp [rowCount, List.countP_cons]

/-- Rows reported for the handle `some p`: exactly one when `some p` occurs
among the remaining start handles and at least one end entry carries it,
none otherwise. -/
theorem matchLoop_rowCount (T P : Nat) (p : Ptr) :
    ∀ (ss ea : List TaskStatus) (tbl : List accumulated_info_t),
      (handles ss).Nodup →
      rowCount p (matchLoop T P ss ea tbl).rows =
        if some p ∈ handles ss ∧ 0 < handleCount p ea then 1 else 0
  | [], ea, tbl, _ => by simp [matchLoop, rowCount, handles]
  | s :: rest, ea, tbl, hnd => by
    have hnd2 : (handles rest).Nodup := (List.nodup_cons.mp hnd).2
    have hns : s.xHandle ∉ handles rest := (List.nodup_cons.mp hnd).1
    rcases hnm : nullMatch s.xHandle ea with _ | ⟨m, ea1⟩
    · have hno := nullMatch_eq_none.mp hnm
      have hrec := matchLoop_rowCount T P p rest ea tbl hnd2
      simp only [matchLoop, hnm]
      rw [hrec]
      by_cases hsp : s.xHandle = some p
      · have hc0 : handleCount p ea = 0 :=
          handleCount_eq_zero.mpr (fun e he => by rw [← hsp]; exact hno e he)
        rw [hc0, if_neg (fun hh => Nat.lt_irrefl 0 hh.2),
          if_neg (fun hh => Nat.lt_irrefl 0 hh.2)]
      · have hiff : ((some p ∈ handles rest) ∧ 0 < handleCount p ea) ↔
            ((some p ∈ handles (s :: rest)) ∧ 0 < handleCount p ea) := by
          rw [handles_cons_mem]
          constructor
          · rintro ⟨h1, h2⟩
            exact ⟨Or.inr h1, h2⟩
          · rintro ⟨h1 | h1, h2⟩
            · exact absurd h1 hsp
            · exact ⟨h1, h2⟩
        rw [if_congr hiff rfl rfl]
    · obtain ⟨hmx, hmem, hcne, hceq, _⟩ := nullMatch_some_facts hnm
      have hrec := matchLoop_rowCount T P p rest ea1
        (set_accumulated_info (some s.pcTaskName)
          (u32sub m.ulRunTimeCounter s.ulRunTimeCounter) tbl) hnd2
      simp only [matchLoop, hnm]
      rw [rowCount_cons_mk, hrec]
      by_cases hsp : s.xHandle = some p
      · have hnr : some p ∉ handles rest := by
          rw [← hsp]
          exact hns
        have hpos : 0 < handleCount p ea := handleCount_pos.mpr
          (List.mem_map.mpr ⟨m, hmem, by rw [hmx, hsp]⟩)
        rw [if_neg (fun hh => hnr hh.1), if_pos hsp,
          if_pos ⟨handles_cons_mem.mpr (Or.inl hsp), hpos⟩]
      · rw [if_neg hsp, hcne p hsp]
        have hiff : ((some p ∈ handles rest) ∧ 0 < handleCount p ea) ↔
            ((some p ∈ handles (s :: rest)) ∧ 0 < handleCount p ea) := by
          rw [handles_cons_mem]
          constructor
          · rintro ⟨h1, h2⟩
            exact ⟨Or.inr h1, h2⟩
          · rintro ⟨h1 | h1, h2⟩
            · exact absurd h1 hsp
            · exact ⟨h1, h2⟩
        rw [if_congr hiff rfl rfl]
        omega

/-- Start entries still carrying the handle `some p` after the loop:
exactly the one unmatched start entry with that handle, when it exists. -/
theorem matchLoop_startOut_count (T P : Nat) (p : Ptr) :
    ∀ (ss ea : List TaskStatus) (tbl : List accumulated_info_t),
      (handles ss).Nodup →
      handleCount p (matchLoop T P ss ea tbl).startOut =
        if some p ∈ handles ss ∧ handleCount p ea = 0 then 1 else 0
  | [], ea, tbl, _ => by simp [matchLoop, handleCount, handles]
  | s :: rest, ea, tbl, hnd => by
    have hnd2 : (handles rest).Nodup := (List.nodup_cons.mp hnd).2
    have hns : s.xHandle ∉ handles rest := (List.nodup_cons.mp hnd).1
    rcases hnm : nullMatch s.xHandle ea with _ | ⟨m, ea1⟩
    · have hno := nullMatch_eq_none.mp hnm
      have hrec := matchLoop_startOut_count T P p rest ea tbl hnd2
      simp only [matchLoop, hnm]
      rw [handleCount_cons, hrec]
      by_cases hsp : s.xHandle = some p
      · have hc0 : handleCount p ea = 0 :=
          handleCount_eq_zero.mpr (fun e he => by rw [← hsp]; exact hno e he)
        have hnr : some p ∉ handles rest := by
          rw [← hsp]
          exact hns
        rw [if_neg (fun hh => hnr hh.1), if_pos hsp,
          if_pos ⟨handles_cons_mem.mpr (Or.inl hsp), hc0⟩]
      · rw [if_neg hsp]
        have hiff : ((some p ∈ handles rest) ∧ handleCount p ea = 0) ↔
            ((some p ∈ handles (s :: rest)) ∧ handleCount p ea = 0) := by
          rw [handles_cons_mem]
          constructor
          · rintro ⟨h1, h2⟩
            exact ⟨Or.inr h1, h2⟩
          · rintro ⟨h1 | h1, h2⟩
            · exact absurd h1 hsp
            · exact ⟨h1, h2⟩
        rw [if_congr hiff rfl rfl]
        omega
    · obtain ⟨hmx, hmem, hcne, hceq, _⟩ := nullMatch_some_facts hnm
      have hrec := matchLoop_startOut_count T P p rest ea1
        (set_accumulated_info (some s.pcTaskName)
          (u32sub m.ulRunTimeCounter s.ulRunTimeCounter) tbl) hnd2
      simp only [matchLoop, hnm]
      rw [handleCount_cons_nulled, hrec]
      by_cases hsp : s.xHandle = some p
      · have hnr : some p ∉ handles rest := by
          rw [← hsp]
          exact hns
        have hpos : 0 < handleCount p ea := handleCount_pos.mpr
          (List.mem_map.mpr ⟨m, hmem, by rw [hmx, hsp]⟩)
        rw [if_neg (fun hh => hnr hh.1),
          if_neg (show ¬((some p ∈ handles (s :: rest)) ∧
              handleCount p ea = 0) from
            fun hh => Nat.lt_irrefl 0 (hh.2 ▸ hpos))]
      · rw [hcne p hsp]
        have hiff : ((some p ∈ handles rest) ∧ handleCount p ea = 0) ↔
            ((some p ∈ handles (s :: rest)) ∧ handleCount p ea = 0) := by
          rw [handles_cons_mem]
          constructor
          · rintro ⟨h1, h2⟩
            exact ⟨Or.inr h1, h2⟩
          · rintro ⟨h1 | h1, h2⟩
            · exact absurd h1 hsp
            · exact ⟨h1, h2⟩
        rw [if_congr hiff rfl rfl]

/-- End entries still carrying the handle `some p` after the loop: the one
end entry with that handle when no start entry matches it, none
otherwise. -/
theorem matchLoop_endOut_count (T P : Nat) (p : Ptr) :
    ∀ (ss ea : List TaskStatus) (tbl : List accumulated_info_t),
      (handles ss).Nodup → (∀ q : Ptr, handleCount q ea ≤ 1) →
      handleCount p (matchLoop T P ss ea tbl).endOut =
        if some p ∈ handles ss then 0 else handleCount p ea
  | [], ea, tbl, _, _ => by simp [matchLoop, handles]
  | s :: rest, ea, tbl, hnd, hb => by
    have hnd2 : (handles rest).Nodup := (List.nodup_cons.mp hnd).2
    have hns : s.xHandle ∉ handles rest := (List.nodup_cons.mp hnd).1
    rcases hnm : nullMatch s.xHandle ea with _ | ⟨m, ea1⟩
    · have hno := nullMatch_eq_none.mp hnm
      have hrec := matchLoop_endOut_count T P p rest ea tbl hnd2 hb
      simp only [matchLoop, hnm]
      rw [hrec]
      by_cases hsp : s.xHandle = some p
      · have hc0 : handleCount p ea = 0 :=
          handleCount_eq_zero.mpr (fun e he => by rw [← hsp]; exact hno e he)
        rw [if_pos (handles_cons_mem.mpr (Or.inl hsp))]
        by_cases hm2 : some p ∈ handles rest
        · rw [if_pos hm2]
        · rw [if_neg hm2, hc0]
      · have hiff : (some p ∈ handles rest) ↔
            (some p ∈ handles (s :: rest)) := by
          rw [handles_cons_mem]
          constructor
          · exact Or.inr
          · rintro (h1 | h1)
            · exact absurd h1 hsp
            · exact h1
        rw [if_congr hiff rfl rfl]
    · obtain ⟨hmx, hmem, hcne, hceq, _⟩ := nullMatch_some_facts hnm
      have hb1 : ∀ q : Ptr, handleCount q ea1 ≤ 1 := by
        intro q
        by_cases hq : s.xHandle = some q
        · have h1 := hceq q hq
          have h2 := hb q
          omega
        · rw [hcne q hq]
          exact hb q
      have hrec := matchLoop_endOut_count T P p rest ea1
        (set_accumulated_info (some s.pcTaskName)
          (u32sub m.ulRunTimeCounter s.ulRunTimeCounter) tbl) hnd2 hb1
      simp only [matchLoop, hnm]
      rw [hrec]
      by_cases hsp : s.xHandle = some p
      · have hnr : some p ∉ handles rest := by
          rw [← hsp]
          exact hns
        have hc1 : handleCount p ea1 = 0 := by
          have h1 := hceq p hsp
          have h2 := hb p
          omega
        rw [if_neg hnr, hc1, if_pos (handles_cons_mem.mpr (Or.inl hsp))]
      · rw [hcne p hsp]
        have hiff : (some p ∈ handles rest) ↔
            (some p ∈ handles (s :: rest)) := by
          rw [handles_cons_mem]
          constructor
          · exact Or.inr
          · rintro (h1 | h1)
            · exact absurd h1 hsp
            · exact h1
        rw [if_congr hiff rfl rfl]

theorem deletedOf_count (p : Ptr) (r : MatchResult) :
    handleCount p (deletedOf r) = handleCount p r.startOut :=
  handleCount_filter p r.startOut

theorem createdOf_count (p : Ptr) (r : MatchResult) :
    handleCount p (createdOf r) = handleCount p r.endOut :=
  handleCount_filter p r.endOut

/-- C3: each task entry is classified exactly once, by handle identity and
never by name: for every handle value, an entry present in both snapshots
yields exactly one matched row and is reported neither as deleted nor as
created; an entry present only in the start snapshot is reported deleted
exactly once (names play no role, so an end entry sharing its name changes
nothing); an entry present only in the end snapshot is reported created
exactly once. -/
theorem stats_C3 (total procs : Nat) (sa ea : List TaskStatus)
    (tbl : List accumulated_info_t)
    (hs1 : ∀ s ∈ sa, s.xHandle ≠ none) (he1 : ∀ e ∈ ea, e.xHandle ≠ none)
    (hs2 : (handles sa).Nodup) (he2 : (handles ea).Nodup) :
    ∀ p : Ptr,
      ((some p ∈ handles sa ∧ some p ∈ handles ea) →
        rowCount p (matchLoop total procs sa ea tbl).rows = 1 ∧
        handleCount p (deletedOf (matchLoop total procs sa ea tbl)) = 0 ∧
        handleCount p (createdOf (matchLoop total procs sa ea tbl)) = 0) ∧
      ((some p ∈ handles sa ∧ some p ∉ handles ea) →
        rowCount p (matchLoop total procs sa ea tbl).rows = 0 ∧
        handleCount p (deletedOf (matchLoop total procs sa ea tbl)) = 1 ∧
        handleCount p (createdOf (matchLoop total procs sa ea tbl)) = 0) ∧
      ((some p ∉ handles sa ∧ some p ∈ handles ea) →
        rowCount p (matchLoop total procs sa ea tbl).rows = 0 ∧
        handleCount p (deletedOf (matchLoop total procs sa ea tbl)) = 0 ∧
        handleCount p (createdOf (matchLoop total procs sa ea tbl)) = 1) := by
  intro p
  have hb : ∀ q : Ptr, handleCount q ea ≤ 1 := fun q => handleCount_le_one he2
  have hrow := matchLoop_rowCount total procs p sa ea tbl hs2
  have hdel := matchLoop_startOut_count total procs p sa ea tbl hs2
  have hcre := matchLoop_endOut_count total procs p sa ea tbl hs2 hb
  refine ⟨?_, ?_, ?_⟩
  · rintro ⟨hms, hme⟩
    have hpos : 0 < handleCount p ea := handleCount_pos.mpr hme
    refine ⟨?_, ?_, ?_⟩
    · rw [hrow, if_pos ⟨hms, hpos⟩]
    · rw [deletedOf_count, hdel,
        if_neg (show ¬(some p ∈ handles sa ∧ handleCount p ea = 0) from
          fun hh => Nat.lt_irrefl 0 (lt_of_lt_of_eq hpos hh.2))]
    · rw [createdOf_count, hcre, if_pos hms]
  · rintro ⟨hms, hme⟩
    have hc0 : handleCount p ea = 0 := by
      rcases Nat.eq_zero_or_pos (handleCount p ea) with h | h
      · exact h
      · exact absurd (handleCount_pos.mp h) hme
    refine ⟨?_, ?_, ?_⟩
    · rw [hrow, if_neg (show ¬(some p ∈ handles sa ∧
          0 < handleCount p ea) from
        fun hh => Nat.lt_irrefl 0 (lt_of_lt_of_eq hh.2 hc0))]
    · rw [deletedOf_count, hdel, if_pos ⟨hms, hc0⟩]
    · rw [createdOf_count, hcre, if_pos hms]
  · rintro ⟨hms, hme⟩
    have hpos : 0 < handleCount p ea := handleCount_pos.mpr hme
    have h1 : handleCount p ea = 1 := Nat.le_antisymm (hb p) hpos
    refine ⟨?_, ?_, ?_⟩
    · rw [hrow, if_neg (fun hh => hms hh.1)]
    · rw [deletedOf_count, hdel, if_neg (fun hh => hms hh.1)]
    · rw [createdOf_count, hcre, if_neg hms, h1]

/-- Witness for C3: two start tasks (handles 1, 2), two end tasks
(handles 2, 3); task 2 is matched once, task 1 deleted once, task 3
created once, with no cross-reports. -/
theorem stats_C3_w :
    rowCount 2 (matchLoop 100 2 [⟨some 1, 10, 0⟩, ⟨some 2, 11, 5⟩]
      [⟨some 2, 11, 9⟩, ⟨some 3, 12, 4⟩] []).rows = 1 ∧
    handleCount 1 (deletedOf (matchLoop 100 2 [⟨some 1, 10, 0⟩, ⟨some 2, 11, 5⟩]
      [⟨some 2, 11, 9⟩, ⟨some 3, 12, 4⟩] [])) = 1 ∧
    handleCount 3 (createdOf (matchLoop 100 2 [⟨some 1, 10, 0⟩, ⟨some 2, 11, 5⟩]
      [⟨some 2, 11, 9⟩, ⟨some 3, 12, 4⟩] [])) = 1 :=
  ⟨(((stats_C3 100 2 [⟨some 1, 10, 0⟩, ⟨some 2, 11, 5⟩]
      [⟨some 2, 11, 9⟩, ⟨some 3, 12, 4⟩] [] (by decide) (by decide)
      (by decide) (by decide)) 2).1 ⟨by decide, by decide⟩).1,
   (((stats_C3 100 2 [⟨some 1, 10, 0⟩, ⟨some 2, 11, 5⟩]
      [⟨some 2, 11, 9⟩, ⟨some 3, 12, 4⟩] [] (by decide) (by decide)
      (by decide) (by decide)) 1).2.1 ⟨by decide, by decide⟩).2.1,
   (((stats_C3 100 2 [⟨some 1, 10, 0⟩, ⟨some 2, 11, 5⟩]
      [⟨some 2, 11, 9⟩, ⟨some 3, 12, 4⟩] [] (by decide) (by decide)
      (by decide) (by decide)) 3).2.2 ⟨by decide, by decide⟩).2.2⟩

/-- Every reported row arises from a start entry and an end entry sharing
its handle, with the row's elapsed time and percentage computed from their
counters by the uint32 formulas of stats.c:165-166. -/
theorem matchLoop_rows_spec (T P : Nat) :
    ∀ (ss ea : List TaskStatus) (tbl : List accumulated_info_t),
      (∀ s ∈ ss, s.xHandle ≠ none) →
      ∀ row ∈ (matchLoop T P ss ea tbl).rows,
        ∃ s, s ∈ ss ∧ ∃ e, e ∈ ea ∧ s.xHandle = row.handle ∧
          e.xHandle = row.handle ∧
          row.task_elapsed_time =
            u32sub e.ulRunTimeCounter s.ulRunTimeCounter ∧
          row.percentage_time =
            u32mul row.task_elapsed_time 100 / u32mul T P
  | [], ea, tbl, _, row, hrow => by simp [matchLoop] at hrow
  | s :: rest, ea, tbl, hs1, row, hrow => by
    rcases hnm : nullMatch s.xHandle ea with _ | ⟨m, ea1⟩
    · simp only [matchLoop, hnm] at hrow
      obtain ⟨s2, hs2, e2, he2, hsx, hex, helap, hpct⟩ :=
        matchLoop_rows_spec T P rest ea tbl
          (fun x hx => hs1 x (List.mem_cons_of_mem _ hx)) row hrow
      exact ⟨s2, List.mem_cons_of_mem _ hs2, e2, he2, hsx, hex, helap, hpct⟩
    · obtain ⟨hmx, hmem, hcne, hceq, f5⟩ := nullMatch_some_facts hnm
      simp only [matchLoop, hnm] at hrow
      rcases List.mem_cons.mp hrow with rfl | hrow2
      · exact ⟨s, List.mem_cons_self _ _, m, hmem, rfl, hmx, rfl, rfl⟩
      · obtain ⟨s2, hs2, e2, he2, hsx, hex, helap, hpct⟩ :=
          matchLoop_rows_spec T P rest ea1
            (set_accumulated_info (some s.pcTaskName)
              (u32sub m.ulRunTimeCounter s.ulRunTimeCounter) tbl)
            (fun x hx => hs1 x (List.mem_cons_of_mem _ hx)) row hrow2
        rcases f5 e2 he2 with hin | hnull
        · exact ⟨s2, List.mem_cons_of_mem _ hs2, e2, hin, hsx, hex,
            helap, hpct⟩
        · exfalso
          have hen : e2.xHandle = none := by rw [hnull]
          rw [hen] at hex
          apply hs1 s2 (List.mem_cons_of_mem _ hs2)
          rw [hsx]
          exact hex.symm

/-- C4 counterexample: the claim asserts
`percentage = floor(elapsed * 100 / (total * width))` in exact integer
arithmetic for all counter values; but with start counter 0, end counter
43000000, total 1000 ticks, width 2, the C expression
`task_elapsed_time * 100UL` wraps modulo 2^32, and the reported
percentage 2516 differs from the exact value 2150000. -/
theorem stats_C4_cex :
    (matchLoop 1000 2 [⟨some 1, 7, 0⟩] [⟨some 1, 7, 43000000⟩] []).rows.map
      (fun row => (row.task_elapsed_time, row.percentage_time)) =
      [(43000000, 2516)] ∧
    (2516 : Nat) ≠ 43000000 * 100 / (1000 * 2) := by
  constructor
  · decide
  · decide

/-- C4 amended: for every matched row, the per-task elapsed time is the
uint32 difference `(end.counter - start.counter) mod 2^32` (wraparound
tolerated), and the reported percentage is
`((elapsed * 100) mod 2^32) / ((total * width) mod 2^32)` — all operands
in uint32 arithmetic; this equals the exact
`floor(elapsed * 100 / (total * width))` whenever neither 32-bit product
overflows. -/
theorem stats_C4_amended (total procs : Nat) (sa ea : List TaskStatus)
    (tbl : List accumulated_info_t)
    (hs1 : ∀ s ∈ sa, s.xHandle ≠ none)
    (hsc : ∀ s ∈ sa, s.ulRunTimeCounter < U32)
    (hec : ∀ e ∈ ea, e.ulRunTimeCounter < U32) :
    ∀ row ∈ (matchLoop total procs sa ea tbl).rows,
      (∃ s, s ∈ sa ∧ ∃ e, e ∈ ea ∧ s.xHandle = row.handle ∧
        e.xHandle = row.handle ∧
        row.task_elapsed_time =
          (U32 + e.ulRunTimeCounter - s.ulRunTimeCounter) % U32) ∧
      row.percentage_time =
        ((row.task_elapsed_time * 100) % U32) / ((total * procs) % U32) ∧
      (row.task_elapsed_time * 100 < U32 → total * procs < U32 →
        row.percentage_time =
          row.task_elapsed_time * 100 / (total * procs)) := by
  intro row hrow
  obtain ⟨s, hs, e, he, hsx, hex, helap, hpct⟩ :=
    matchLoop_rows_spec total procs sa ea tbl hs1 row hrow
  have hsc2 := hsc s hs
  refine ⟨⟨s, hs, e, he, hsx, hex, ?_⟩, ?_, ?_⟩
  · rw [helap]
    unfold u32sub
    rw [Nat.mod_eq_of_lt hsc2]
  · rw [hpct]
    rfl
  · intro h1 h3
    rw [hpct]
    unfold u32mul
    rw [Nat.mod_eq_of_lt h1, Nat.mod_eq_of_lt h3]

/-- Witness for C4's amended theorem at concrete counters without
overflow. -/
theorem stats_C4_amended_w :
    ((⟨some 1, 9, 400, none, 20⟩ : MatchedRow).task_elapsed_time * 100
        < U32) ∧
    (⟨some 1, 9, 400, none, 20⟩ : MatchedRow).percentage_time =
      (⟨some 1, 9, 400, none, 20⟩ : MatchedRow).task_elapsed_time * 100 /
        (1000 * 2) :=
  ⟨by norm_num [U32],
   ((stats_C4_amended 1000 2 [⟨some 1, 9, 100⟩] [⟨some 1, 9, 500⟩] []
      (by decide) (by decide) (by decide)) ⟨some 1, 9, 400, none, 20⟩
      (by decide)).2.2 (by norm_num [U32]) (by norm_num [U32])⟩
